import Mathlib

/-!
Shallow embedding of src/bitbucket/repositories.js (RepositoriesApi) and a
verification of the specification claims about it.

JavaScript strings are modelled as Lean String values, JS arrays as List,
absent values (undefined/null) as Option.none, and the injected transport
as a value of type ApiCall that describes the single request a method
hands to it. A method that can throw returns Except String ApiCall: an
Except.error result is a synchronously thrown Error, and by construction
it carries no ApiCall, so a call that raises makes no transport call.
-/

/-- Model of a dynamically typed JavaScript value, as far as the
validation in repositories.js inspects one (lodash isBoolean / isString). -/
inductive JsVal where
  | undef
  | nullv
  | boolean (b : Bool)
  | str (s : String)
  | num (n : Int)
deriving DecidableEq

/-- Embedding of lodash isBoolean. -/
def JsVal.isBoolean : JsVal → Bool
  | .boolean _ => true
  | _ => false

/-- Embedding of lodash isString: any string, the empty one included. -/
def JsVal.isString : JsVal → Bool
  | .str _ => true
  | _ => false

/-- String payload of a JsVal; in the embedding it is only reached under
an isString guard, so the default branch is unreachable there. -/
def JsVal.asString : JsVal → String
  | .str s => s
  | _ => ""

/-- Repo metadata object passed to create: the two properties the code
inspects (repositories.js line 20). -/
structure Repo where
  is_private : JsVal
  name : JsVal
deriving DecidableEq

/-- Request descriptor handed to the injected api transport, covering the
three transport operations of spec section 6: api.get(path, params),
api.post(path, body) and api.request.doPrebuiltSend(url). A plain
api.get(path) with no parameter object is modelled by an empty params
list. -/
inductive ApiCall where
  | get (path : String) (params : List (String × String))
  | post (path : String) (body : Repo)
  | prebuilt (url : String)
deriving DecidableEq

/-- State query parameter of a request descriptor. -/
def ApiCall.stateParam : ApiCall → Option String
  | .get _ ps => ps.lookup "state"
  | _ => none

/-- Fields query parameter of a request descriptor. -/
def ApiCall.fieldsParam : ApiCall → Option String
  | .get _ ps => ps.lookup "fields"
  | _ => none

/-- Path of a request descriptor. -/
def ApiCall.path : ApiCall → String
  | .get p _ => p
  | .post p _ => p
  | .prebuilt u => u

/-- Characters that JavaScript encodeURI leaves unescaped: ASCII
alphanumerics, the unescaped marks, the URI reserved characters and the
hash sign (ECMA-262, uriReserved plus uriUnescaped plus the hash). The
apostrophe, code point 39, is among them. -/
def encodeURIUnescaped : List Char :=
  "ABCDEFGHIJKLMNOPQRSTUVWXYZabcdefghijklmnopqrstuvwxyz0123456789;,/?:@&=+$-_.!~*()#".data
    ++ [Char.ofNat 39]

/-- Uppercase hexadecimal digit for n below 16. -/
def hexDigit (n : Nat) : Char :=
  if n < 10 then Char.ofNat (48 + n) else Char.ofNat (55 + n)

/-- UTF-8 bytes of one code point. -/
def utf8Bytes (c : Char) : List Nat :=
  let n := c.toNat
  if n < 128 then [n]
  else if n < 2048 then [192 + n / 64, 128 + n % 64]
  else if n < 65536 then [224 + n / 4096, 128 + n / 64 % 64, 128 + n % 64]
  else [240 + n / 262144, 128 + n / 4096 % 64, 128 + n / 64 % 64, 128 + n % 64]

/-- Percent encoding of one byte, with uppercase hexadecimal digits as
encodeURI produces them; 37 is the percent sign. -/
def percentByte (b : Nat) : List Char :=
  [Char.ofNat 37, hexDigit (b / 16), hexDigit (b % 16)]

/-- Embedding of JavaScript encodeURI on one character. -/
def encodeURIChar (c : Char) : List Char :=
  if encodeURIUnescaped.contains c then [c]
  else ((utf8Bytes c).map percentByte).flatten

/-- Embedding of JavaScript encodeURI: every character outside the
unescaped set is replaced by the percent encoding of its UTF-8 bytes;
characters in the unescaped set, among them the slash, pass through. -/
def encodeURI (s : String) : String :=
  String.mk ((s.data.map encodeURIChar).flatten)

/-- Apostrophe character, code point 39. -/
def apostropheChar : Char := Char.ofNat 39

/-- Double quote character, code point 34. -/
def quoteChar : Char := Char.ofNat 34

/-- Dash character. -/
def dashChar : Char := '-'

/-- Step 1 of the slug derivation (repositories.js line 35): the global
replace of single and double quote characters by nothing. -/
def removeQuotes (l : List Char) : List Char :=
  l.filter fun c => !(c == apostropheChar || c == quoteChar)

/-- Word character in the sense of the JavaScript regex word class with
default flags: ASCII letters, digits and the underscore. -/
def isWordChar (c : Char) : Bool :=
  decide (65 ≤ c.toNat ∧ c.toNat ≤ 90) || decide (97 ≤ c.toNat ∧ c.toNat ≤ 122) ||
    decide (48 ≤ c.toNat ∧ c.toNat ≤ 57) || decide (c.toNat = 95)

/-- Step 2 (line 36): the global replace of every non word character by a
dash, one dash per character. -/
def dashNonWord (l : List Char) : List Char :=
  l.map fun c => if isWordChar c then c else dashChar

/-- Step 3 (line 37): the global replace of every run of two or more
dashes by a single dash, written as a right fold that merges adjacent
dashes; each maximal dash run collapses to one dash, as the regex does. -/
def collapseDashes : List Char → List Char
  | [] => []
  | c :: rest =>
    match collapseDashes rest with
    | [] => [c]
    | d :: ds => if c == dashChar && d == dashChar then d :: ds else c :: d :: ds

/-- Step 4 (line 38): strip one leading dash if present. -/
def stripLeadingDash : List Char → List Char
  | [] => []
  | c :: rest => if c == dashChar then rest else c :: rest

/-- Step 5 (line 39): strip one trailing dash if present. -/
def stripTrailingDash : List Char → List Char
  | [] => []
  | [c] => if c == dashChar then [] else [c]
  | c :: d :: rest => c :: stripTrailingDash (d :: rest)

/-- Step 6 (line 40): ASCII lower casing of one character, as the
JavaScript toLowerCase acts on the ASCII range, the only range the claims
quantify over. -/
def jsToLowerChar (c : Char) : Char :=
  if 65 ≤ c.toNat ∧ c.toNat ≤ 90 then Char.ofNat (c.toNat + 32) else c

/-- Slug derivation performed inline by create (repositories.js lines
34 to 40); the spec names the algorithm deriveSlug. -/
def deriveSlug (name : String) : String :=
  String.mk (List.map jsToLowerChar
    (stripTrailingDash (stripLeadingDash (collapseDashes (dashNonWord (removeQuotes name.data))))))

/-- Well formedness predicate on slug characters: lowercase ASCII letter,
digit, dot, underscore or dash, the character set the spec allows a slug
(codes 97 to 122, 48 to 57, 46, 95 and 45). -/
def slugCharOK (c : Char) : Bool :=
  decide (97 ≤ c.toNat ∧ c.toNat ≤ 122) || decide (48 ≤ c.toNat ∧ c.toNat ≤ 57) ||
    decide (c.toNat = 46) || decide (c.toNat = 95) || decide (c.toNat = 45)

/-- Uppercase ASCII letter. -/
def isAsciiUpper (c : Char) : Bool :=
  decide (65 ≤ c.toNat ∧ c.toNat ≤ 90)

/-- Absence of two consecutive dashes in a character list. -/
def noConsecDash : List Char → Bool
  | [] => true
  | [_] => true
  | a :: b :: rest => !(a == dashChar && b == dashChar) && noConsecDash (b :: rest)

/-- Modelled from the spec: constants.js is required by repositories.js
but is not under src. Spec section 3 gives the closed enumeration of pull
request state tokens (OPEN, MERGED, DECLINED, SUPERSEDED); lodash includes
on the constants object constants.pullRequest.states tests membership
among its values, modelled as membership in this list. -/
def pullRequestStates : List String := ["OPEN", "MERGED", "DECLINED", "SUPERSEDED"]

/-- State argument of getPullRequests: absent (undefined or null), a
single token, or an array of tokens. -/
inductive StateArg where
  | absent
  | single (token : String)
  | list (tokens : List String)
deriving DecidableEq

/-- JavaScript truthiness of an optional string: undefined and the empty
string are falsy, every other string is truthy. -/
def jsTruthy : Option String → Bool
  | none => false
  | some s => !(s == "")

/-- Embedding of the lodash find over the ORIGINAL state argument on line
102: over undefined the find yields undefined, over a string it iterates
its characters as single character strings, over an array its elements;
it returns the first element outside the state enumeration, if any. -/
def findInvalidState : StateArg → Option String
  | .absent => none
  | .single s => (s.data.map String.singleton).find? fun e => !(pullRequestStates.contains e)
  | .list l => l.find? fun e => !(pullRequestStates.contains e)

/-- State normalization block of getPullRequests (lines 94 to 105):
default to the one element OPEN array when the argument is falsy, wrap a
single token into an array, and replace the whole array by the OPEN
default when the find over the original argument returns a truthy
element. -/
def getPullRequestsStateArray (state : StateArg) : List String :=
  let stateArray : List String :=
    match state with
    | .absent => ["OPEN"]
    | .single s => if s == "" then ["OPEN"] else [s]
    | .list l => l
  if jsTruthy (findInvalidState state) then ["OPEN"] else stateArray

/-- State normalization block of getPullRequestsWithFields (lines 130 to
141), a verbatim duplicate of the block in getPullRequests, with the find
over the original state argument on line 138. -/
def getPullRequestsWithFieldsStateArray (state : StateArg) : List String :=
  let stateArray : List String :=
    match state with
    | .absent => ["OPEN"]
    | .single s => if s == "" then ["OPEN"] else [s]
    | .list l => l
  if jsTruthy (findInvalidState state) then ["OPEN"] else stateArray

/-- Forks link object of a response body, holding the optional href. -/
structure ForksLinkObj where
  href : Option String
deriving DecidableEq

/-- Links object of a response body, holding the optional forks link. -/
structure LinksObj where
  forks : Option ForksLinkObj
deriving DecidableEq

/-- Response body, holding the optional links object. -/
structure ResponseBody where
  links : Option LinksObj
deriving DecidableEq

/-- API response: either a wrapper carrying a body property, or the body
itself. -/
inductive Response where
  | wrapped (body : ResponseBody)
  | bare (body : ResponseBody)
deriving DecidableEq

/-- Modelled from the spec: helpers.js (extractResponseBody) is required
by repositories.js but is not under src. Spec section 4.4 says the link
accessors operate on an already fetched response object or its unwrapped
body, so the extraction returns the body in either case. -/
def extractResponseBody : Response → ResponseBody
  | .wrapped b => b
  | .bare b => b

/-- Embedding of the lodash path lookup over links, forks, href on
repositories.js line 177: undefined as soon as one step of the path is
missing. -/
def forksHref (r : Response) : Option String :=
  ((extractResponseBody r).links.bind fun li => li.forks).bind fun f => f.href

namespace Repositories

/-- Embedding of create (repositories.js lines 19 to 46). The validation
throw on line 21 is the Except.error case; by construction it carries no
ApiCall, so a raise makes no transport call. -/
def create (workspace : String) (repo : Option Repo) : Except String ApiCall :=
  match repo with
  | none => .error "Repo must be initialized with a booelan privacy setting and a string name"
  | some r =>
    if !r.is_private.isBoolean || !r.name.isString then
      .error "Repo must be initialized with a booelan privacy setting and a string name"
    else
      .ok (.post
        ("repositories/" ++ encodeURI workspace ++ "/" ++ encodeURI (deriveSlug r.name.asString))
        r)

/-- Embedding of get (repositories.js line 66). -/
def get (workspace repoSlug : String) : ApiCall :=
  .get ("repositories/" ++ encodeURI workspace ++ "/" ++ encodeURI repoSlug) []

/-- Embedding of getPullRequests (repositories.js lines 93 to 115). -/
def getPullRequests (workspace repoSlug : String) (state : StateArg) : ApiCall :=
  .get ("repositories/" ++ encodeURI workspace ++ "/" ++ encodeURI repoSlug ++ "/pullrequests")
    [("state", String.intercalate "," (getPullRequestsStateArray state))]

/-- Embedding of getPullRequestsWithFields (repositories.js lines 125 to
154): the fields validation throws first; then the state block runs and
the plus prefixed, comma joined fields parameter is added after the state
parameter. -/
def getPullRequestsWithFields (workspace repoSlug : String) (state : StateArg)
    (fields : Option (List String)) : Except String ApiCall :=
  match fields with
  | none =>
    .error "getPullRequestsWithFields: options argument missing or has missing or empty fields array."
  | some fl =>
    if fl.length < 1 then
      .error "getPullRequestsWithFields: options argument missing or has missing or empty fields array."
    else
      .ok (.get
        ("repositories/" ++ encodeURI workspace ++ "/" ++ encodeURI repoSlug ++ "/pullrequests")
        [("state", String.intercalate "," (getPullRequestsWithFieldsStateArray state)),
         ("fields", String.intercalate "," (fl.map fun field => "+" ++ field))])

/-- Embedding of getForksFromResponse (repositories.js lines 176 to 184):
throw when the looked up URL is falsy, undefined or empty, otherwise hand
the prebuilt URL to the transport. -/
def getForksFromResponse (r : Response) : Except String ApiCall :=
  if jsTruthy (forksHref r) then .ok (.prebuilt ((forksHref r).getD ""))
  else .error "getForksFromResponse: argument has no forks url."

end Repositories

/-- Name of the spec example for the slug derivation, built around a
literal apostrophe. -/
def specExampleName : String := "My Repo" ++ String.singleton apostropheChar ++ "s Name!!"

/-- Helper: the two state normalization blocks are verbatim duplicates, so
their embeddings are definitionally equal. -/
theorem stateArray_blocks_eq :
    getPullRequestsWithFieldsStateArray = getPullRequestsStateArray := rfl

/-- C1: the claim fails on the code. Passing the single valid token MERGED
(not as a sequence) to getPullRequests does not yield the state value
MERGED: the lodash find on line 102 iterates the ORIGINAL string argument
character by character, every one character string falls outside the state
enumeration and is truthy, so the whole filter is replaced by the OPEN
default and the state query value is OPEN, contradicting the commented
contract of the parameter (default to OPEN only if invalid or undefined). -/
theorem getPullRequests_single_merged_defaults_to_open :
    (Repositories.getPullRequests "w" "r" (StateArg.single "MERGED")).stateParam
      = some "OPEN" := by decide

/-- C2 counterexample: the slug the code derives from the spec example name
(My Repo, apostrophe, s Name!!) is not my-repo-s-name: the apostrophe is
removed by step 1 before the dash replacement, so no dash appears in its
place. -/
theorem deriveSlug_spec_example_counterexample :
    deriveSlug specExampleName ≠ "my-repo-s-name" := by decide

/-- C2 amended: single and double quote characters vanish from the derived
slug rather than becoming separators (removing a quote character anywhere
in the name leaves the slug unchanged), and the spec example name derives
to my-repos-name. -/
theorem deriveSlug_quotes_vanish :
    (∀ (s₁ s₂ : String) (c : Char), c = apostropheChar ∨ c = quoteChar →
      deriveSlug (s₁ ++ String.singleton c ++ s₂) = deriveSlug (s₁ ++ s₂)) ∧
    deriveSlug specExampleName = "my-repos-name" := by
  refine ⟨?_, by decide⟩
  intro s₁ s₂ c hc
  have hdata : (String.singleton c).data = [c] := rfl
  have hfilter : removeQuotes ((s₁ ++ String.singleton c ++ s₂).data)
      = removeQuotes ((s₁ ++ s₂).data) := by
    simp only [String.data_append, removeQuotes, List.filter_append, hdata]
    rcases hc with rfl | rfl <;> simp [apostropheChar, quoteChar]
  unfold deriveSlug
  rw [hfilter]

/-- C3 counterexample: the sequence MERGED, empty string contains a token
outside the closed enumeration (the empty string), yet the filter is not
replaced by OPEN: the find returns the empty string, which is falsy, so
the fallback does not trigger and the query value is the comma join
MERGED followed by a trailing comma. -/
theorem getPullRequests_falsy_invalid_not_replaced :
    pullRequestStates.contains "" = false ∧
    (Repositories.getPullRequests "w" "r" (StateArg.list ["MERGED", ""])).stateParam
      ≠ some "OPEN" := by decide

/-- C3 amended: when the state argument is absent the value is OPEN; when
the FIRST token of the sequence outside the closed enumeration exists and
is non empty, the whole filter is replaced by OPEN; when every token is
valid the sequence is used unchanged, in order, and the state query value
is its comma join. -/
theorem getPullRequests_state_filter_amended (w rs : String) :
    ((Repositories.getPullRequests w rs StateArg.absent).stateParam = some "OPEN") ∧
    (∀ l e, l.find? (fun t => !(pullRequestStates.contains t)) = some e → e ≠ "" →
      (Repositories.getPullRequests w rs (StateArg.list l)).stateParam = some "OPEN") ∧
    (∀ l, (∀ e ∈ l, pullRequestStates.contains e = true) →
      (Repositories.getPullRequests w rs (StateArg.list l)).stateParam
        = some (String.intercalate "," l)) := by
  refine ⟨rfl, ?_, ?_⟩
  · intro l e hf hne
    have harr : getPullRequestsStateArray (StateArg.list l) = ["OPEN"] := by
      unfold getPullRequestsStateArray
      have hfind : findInvalidState (StateArg.list l) = some e := hf
      rw [hfind]
      simp [jsTruthy, hne]
    simp [Repositories.getPullRequests, ApiCall.stateParam, harr, List.lookup]
    decide
  · intro l hall
    have hf : l.find? (fun t => !(pullRequestStates.contains t)) = none := by
      rw [List.find?_eq_none]
      intro x hx
      simpa using hall x hx
    have harr : getPullRequestsStateArray (StateArg.list l) = l := by
      unfold getPullRequestsStateArray
      have hfind : findInvalidState (StateArg.list l) = none := hf
      rw [hfind]
      simp [jsTruthy]
    simp [Repositories.getPullRequests, ApiCall.stateParam, harr, List.lookup]

/-- C4 counterexample: a repo whose name is the empty string (a string,
but not a non empty one) is accepted by create, which goes on to the
transport post instead of raising, so the claimed if and only if
condition fails at this input. -/
theorem create_empty_name_accepted :
    (Repositories.create "w" (some ⟨JsVal.boolean true, JsVal.str ""⟩)).isOk = true ∧
    ¬ ∃ s, JsVal.str "" = JsVal.str s ∧ s ≠ "" := by
  refine ⟨by decide, ?_⟩
  rintro ⟨s, hs, hne⟩
  injection hs with h
  exact hne h.symm

/-- C4 amended: create raises synchronously, making no transport call (the
error case carries no ApiCall), if and only if the repo object is missing,
its privacy flag is not a boolean, or its name is not a string; the empty
string name is accepted. -/
theorem create_validation_amended (w : String) (repo : Option Repo) :
    (Repositories.create w repo).isOk = false ↔
      repo = none ∨ ∃ r, repo = some r ∧
        (r.is_private.isBoolean = false ∨ r.name.isString = false) := by
  cases repo with
  | none => simp [Repositories.create, Except.isOk, Except.toBool]
  | some r =>
    by_cases hb : r.is_private.isBoolean <;> by_cases hn : r.name.isString <;>
      simp [Repositories.create, hb, hn, Except.isOk, Except.toBool]

/-- C5: getPullRequestsWithFields raises, making no transport call, if and
only if the fields list is missing or empty; otherwise the fields query
value is each field path prefixed with a plus sign and joined with commas. -/
theorem getPullRequestsWithFields_fields_validation (w rs : String) (s : StateArg)
    (fields : Option (List String)) :
    ((Repositories.getPullRequestsWithFields w rs s fields).isOk = false ↔
      fields = none ∨ fields = some []) ∧
    (∀ l c, fields = some l →
      Repositories.getPullRequestsWithFields w rs s fields = Except.ok c →
      c.fieldsParam = some (String.intercalate "," (l.map fun f => "+" ++ f))) := by
  constructor
  · cases fields with
    | none => simp [Repositories.getPullRequestsWithFields, Except.isOk, Except.toBool]
    | some fl =>
      cases fl with
      | nil => simp [Repositories.getPullRequestsWithFields, Except.isOk, Except.toBool]
      | cons a as =>
        simp [Repositories.getPullRequestsWithFields, Except.isOk, Except.toBool, Nat.lt_one_iff]
  · rintro l c rfl h
    cases l with
    | nil => simp [Repositories.getPullRequestsWithFields] at h
    | cons a as =>
      simp only [Repositories.getPullRequestsWithFields, List.length_cons,
        Nat.lt_one_iff, Nat.succ_ne_zero, if_false, Except.ok.injEq] at h
      subst h
      simp [ApiCall.fieldsParam, List.lookup]

/-- C7: the claim fails on the code. The identifiers are passed through
encodeURI, which leaves the URI reserved characters unescaped, so a
workspace identifier containing a slash reaches the request path with the
slash intact instead of its percent encoding. -/
theorem get_leaves_slash_unencoded :
    encodeURI "a/b" = "a/b" ∧
    Repositories.get "a/b" "r" = ApiCall.get "repositories/a/b/r" [] := by decide

/-- C8 counterexample: a response whose links
forks href field is present but the empty string makes
getForksFromResponse raise even though the nested field is not absent,
because the code tests the truthiness of the looked up value. -/
theorem getForksFromResponse_empty_href_fails :
    forksHref (Response.bare ⟨some ⟨some ⟨some ""⟩⟩⟩) = some "" ∧
    (Repositories.getForksFromResponse (Response.bare ⟨some ⟨some ⟨some ""⟩⟩⟩)).isOk
      = false := by decide

/-- C8 amended: the accessor hands the transport exactly the pre built URL
found at links forks href of the response body, and fails, making no
transport call, if and only if that nested field is absent or the empty
string. -/
theorem getForksFromResponse_link (r : Response) :
    ((Repositories.getForksFromResponse r).isOk = false ↔
      forksHref r = none ∨ forksHref r = some "") ∧
    (∀ u, forksHref r = some u → u ≠ "" →
      Repositories.getForksFromResponse r = Except.ok (ApiCall.prebuilt u)) := by
  constructor
  · cases hf : forksHref r with
    | none => simp [Repositories.getForksFromResponse, hf, jsTruthy, Except.isOk, Except.toBool]
    | some u =>
      by_cases hu : u = "" <;>
        simp [Repositories.getForksFromResponse, hf, jsTruthy, hu, Except.isOk, Except.toBool]
  · intro u hu hne
    simp [Repositories.getForksFromResponse, hu, jsTruthy, hne]

/-- C9: when every token of the sequence outside the closed enumeration is
falsy (the empty string), the whole sequence fallback does not trigger:
the sequence passes through unchanged and its comma join becomes the state
query value. -/
theorem getPullRequests_falsy_invalid_passthrough (w rs : String) (l : List String)
    (h : ∀ e ∈ l, pullRequestStates.contains e = false → e = "") :
    (Repositories.getPullRequests w rs (StateArg.list l)).stateParam
      = some (String.intercalate "," l) := by
  have harr : getPullRequestsStateArray (StateArg.list l) = l := by
    unfold getPullRequestsStateArray
    cases hf : findInvalidState (StateArg.list l) with
    | none => simp [jsTruthy]
    | some e =>
      have hpe : pullRequestStates.contains e = false := by
        simpa using List.find?_some hf
      have hme : e ∈ l := List.mem_of_find?_eq_some hf
      have he : e = "" := h e hme hpe
      subst he
      simp [jsTruthy]
  simp [Repositories.getPullRequests, ApiCall.stateParam, harr, List.lookup]

/-- C9 witness: the concrete sequence MERGED, empty string passes through
unchanged and its comma join (with trailing comma) is the state value. -/
theorem getPullRequests_falsy_invalid_passthrough_witness :
    (Repositories.getPullRequests "w" "r" (StateArg.list ["MERGED", ""])).stateParam
      = some (String.intercalate "," ["MERGED", ""]) :=
  getPullRequests_falsy_invalid_passthrough "w" "r" ["MERGED", ""] (by decide)

/-- C10: for every state argument, whenever getPullRequestsWithFields does
reach the transport, its state query value is exactly the one
getPullRequests computes: the two state normalization blocks are verbatim
duplicates of each other. -/
theorem getPullRequests_withFields_state_equivalence (w rs : String) (s : StateArg)
    (fields : Option (List String)) (c : ApiCall)
    (h : Repositories.getPullRequestsWithFields w rs s fields = Except.ok c) :
    c.stateParam = (Repositories.getPullRequests w rs s).stateParam := by
  cases fields with
  | none => simp [Repositories.getPullRequestsWithFields] at h
  | some fl =>
    cases fl with
    | nil => simp [Repositories.getPullRequestsWithFields] at h
    | cons a as =>
      simp only [Repositories.getPullRequestsWithFields, List.length_cons,
        Nat.lt_one_iff, Nat.succ_ne_zero, if_false, Except.ok.injEq] at h
      subst h
      simp [Repositories.getPullRequests, ApiCall.stateParam, List.lookup,
        getPullRequestsWithFieldsStateArray, getPullRequestsStateArray]

/-- C10 witness: at a concrete input both methods compute the state value
OPEN. -/
theorem getPullRequests_withFields_state_equivalence_witness :
    (ApiCall.get "repositories/w/r/pullrequests"
        [("state", "OPEN"), ("fields", "+values.title")]).stateParam
      = (Repositories.getPullRequests "w" "r" StateArg.absent).stateParam :=
  getPullRequests_withFields_state_equivalence "w" "r" StateArg.absent
    (some ["values.title"])
    (ApiCall.get "repositories/w/r/pullrequests"
      [("state", "OPEN"), ("fields", "+values.title")]) rfl

/-- Helper: split a true conjunction of Booleans. -/
theorem bool_and_split {a b : Bool} (h : (a && b) = true) : a = true ∧ b = true := by
  simp only [Bool.and_eq_true] at h
  exact h

/-- Helper: a Nat that is a valid code point survives the round trip
through Char.ofNat. -/
theorem char_toNat_ofNat_valid {n : Nat} (h : n.isValidChar) :
    (Char.ofNat n).toNat = n := by
  simp only [Char.ofNat, dif_pos h, Char.ofNatAux, Char.toNat]
  simp [UInt32.toNat]

/-- Helper: characters with equal code points are equal. -/
theorem char_eq_of_toNat_eq {a b : Char} (h : a.toNat = b.toNat) : a = b := by
  apply Char.ext
  apply UInt32.ext
  simpa [Char.toNat, UInt32.toNat] using h

/-- Helper: the code point of the ASCII lowered character. -/
theorem toNat_jsToLowerChar (c : Char) :
    (jsToLowerChar c).toNat
      = if 65 ≤ c.toNat ∧ c.toNat ≤ 90 then c.toNat + 32 else c.toNat := by
  unfold jsToLowerChar
  by_cases h : 65 ≤ c.toNat ∧ c.toNat ≤ 90
  · rw [if_pos h, if_pos h]
    exact char_toNat_ofNat_valid (Or.inl (by omega))
  · rw [if_neg h, if_neg h]

/-- Helper: ASCII lowering maps exactly the dash to the dash. -/
theorem jsToLowerChar_eq_dash_iff (c : Char) :
    jsToLowerChar c = dashChar ↔ c = dashChar := by
  constructor
  · intro h
    have ht : (jsToLowerChar c).toNat = dashChar.toNat := by rw [h]
    rw [toNat_jsToLowerChar] at ht
    have hdash : dashChar.toNat = 45 := rfl
    by_cases h90 : 65 ≤ c.toNat ∧ c.toNat ≤ 90
    · rw [if_pos h90] at ht
      omega
    · rw [if_neg h90] at ht
      exact char_eq_of_toNat_eq (by omega)
  · rintro rfl
    decide

/-- Helper: unfolding equation of collapseDashes when the collapsed tail
is empty. -/
theorem collapseDashes_cons_nil {a : Char} {rest : List Char}
    (h : collapseDashes rest = []) : collapseDashes (a :: rest) = [a] := by
  rw [collapseDashes, h]

/-- Helper: unfolding equation of collapseDashes when the collapsed tail
is nonempty. -/
theorem collapseDashes_cons_cons {a d : Char} {rest ds : List Char}
    (h : collapseDashes rest = d :: ds) :
    collapseDashes (a :: rest)
      = if a == dashChar && d == dashChar then d :: ds else a :: d :: ds := by
  rw [collapseDashes, h]

/-- Helper: collapseDashes introduces no character. -/
theorem mem_collapseDashes {c : Char} : ∀ {l : List Char}, c ∈ collapseDashes l → c ∈ l := by
  intro l
  induction l with
  | nil => intro h; simp [collapseDashes] at h
  | cons a rest ih =>
    intro h
    cases heq : collapseDashes rest with
    | nil =>
      rw [collapseDashes_cons_nil heq] at h
      simp only [List.mem_singleton] at h
      simp [h]
    | cons d ds =>
      rw [collapseDashes_cons_cons heq] at h
      by_cases hdd : (a == dashChar && d == dashChar) = true
      · rw [if_pos hdd] at h
        have h2 : c ∈ collapseDashes rest := by rw [heq]; exact h
        exact List.mem_cons_of_mem a (ih h2)
      · rw [if_neg hdd] at h
        rcases List.mem_cons.mp h with rfl | h2
        · exact List.mem_cons_self _ _
        · have h3 : c ∈ collapseDashes rest := by rw [heq]; exact h2
          exact List.mem_cons_of_mem a (ih h3)

/-- Helper: stripLeadingDash introduces no character. -/
theorem mem_stripLeadingDash {c : Char} {l : List Char}
    (h : c ∈ stripLeadingDash l) : c ∈ l := by
  cases l with
  | nil => simp [stripLeadingDash] at h
  | cons a rest =>
    rw [stripLeadingDash] at h
    by_cases ha : (a == dashChar) = true
    · rw [if_pos ha] at h
      exact List.mem_cons_of_mem a h
    · rw [if_neg ha] at h
      exact h

/-- Helper: stripTrailingDash introduces no character. -/
theorem mem_stripTrailingDash {c : Char} : ∀ {l : List Char}, c ∈ stripTrailingDash l → c ∈ l
  | [], h => by simp [stripTrailingDash] at h
  | [a], h => by
    rw [stripTrailingDash] at h
    by_cases ha : (a == dashChar) = true
    · rw [if_pos ha] at h
      simp at h
    · rw [if_neg ha] at h
      exact h
  | a :: b :: rest, h => by
    rw [stripTrailingDash] at h
    rcases List.mem_cons.mp h with rfl | h2
    · exact List.mem_cons_self _ _
    · exact List.mem_cons_of_mem a (mem_stripTrailingDash h2)

/-- Helper: every character the dash replacement emits is a word character
or the dash. -/
theorem mem_dashNonWord {c : Char} {l : List Char} (h : c ∈ dashNonWord l) :
    isWordChar c = true ∨ c = dashChar := by
  rcases List.mem_map.mp h with ⟨x, _, hfx⟩
  by_cases hw : isWordChar x = true
  · rw [if_pos hw] at hfx
    left
    rw [← hfx]
    exact hw
  · rw [if_neg hw] at hfx
    right
    exact hfx.symm

/-- Helper: unfolding equation of noConsecDash on two leading characters. -/
theorem noConsecDash_cons_cons {a b : Char} {rest : List Char} :
    noConsecDash (a :: b :: rest)
      = (!(a == dashChar && b == dashChar) && noConsecDash (b :: rest)) := by
  rw [noConsecDash]

/-- Helper: the collapsed list has no two consecutive dashes. -/
theorem noConsecDash_collapseDashes : ∀ (l : List Char), noConsecDash (collapseDashes l) = true := by
  intro l
  induction l with
  | nil => decide
  | cons a rest ih =>
    cases heq : collapseDashes rest with
    | nil =>
      rw [collapseDashes_cons_nil heq]
      rfl
    | cons d ds =>
      rw [collapseDashes_cons_cons heq]
      rw [heq] at ih
      by_cases hdd : (a == dashChar && d == dashChar) = true
      · rw [if_pos hdd]
        exact ih
      · rw [if_neg hdd]
        rw [noConsecDash_cons_cons, ih]
        simp [hdd]

/-- Helper: the tail of a list without consecutive dashes is one too. -/
theorem noConsecDash_tail {a : Char} {l : List Char}
    (h : noConsecDash (a :: l) = true) : noConsecDash l = true := by
  cases l with
  | nil => rfl
  | cons b rest =>
    rw [noConsecDash_cons_cons] at h
    exact (bool_and_split h).2

/-- Helper: stripping the leading dash preserves the dash run freedom. -/
theorem noConsecDash_stripLeadingDash {l : List Char} (h : noConsecDash l = true) :
    noConsecDash (stripLeadingDash l) = true := by
  cases l with
  | nil => exact h
  | cons a rest =>
    rw [stripLeadingDash]
    by_cases ha : (a == dashChar) = true
    · rw [if_pos ha]
      exact noConsecDash_tail h
    · rw [if_neg ha]
      exact h

/-- Helper: after stripping the leading dash of a dash run free list, the
head is not a dash. -/
theorem head_stripLeadingDash {l : List Char} (h : noConsecDash l = true) :
    (stripLeadingDash l).head? ≠ some dashChar := by
  cases l with
  | nil => simp [stripLeadingDash]
  | cons a rest =>
    rw [stripLeadingDash]
    by_cases ha : (a == dashChar) = true
    · rw [if_pos ha]
      cases rest with
      | nil => simp
      | cons b rest2 =>
        rw [noConsecDash_cons_cons] at h
        have hb := (bool_and_split h).1
        simp only [List.head?_cons, ne_eq, Option.some.injEq]
        intro hbd
        subst hbd
        simp [ha] at hb
    · rw [if_neg ha]
      simp only [List.head?_cons, ne_eq, Option.some.injEq]
      intro had
      exact ha (by simp [had])

/-- Helper: stripTrailingDash returns the empty list only from the empty
list or the single dash. -/
theorem stripTrailingDash_eq_nil : ∀ {l : List Char},
    stripTrailingDash l = [] → l = [] ∨ l = [dashChar]
  | [], _ => Or.inl rfl
  | [a], h => by
    rw [stripTrailingDash] at h
    by_cases ha : (a == dashChar) = true
    · right
      have haa : a = dashChar := by simpa using ha
      rw [haa]
    · rw [if_neg ha] at h
      simp at h
  | _ :: _ :: _, h => by
    rw [stripTrailingDash] at h
    simp at h

/-- Helper: stripTrailingDash keeps the head of the list or empties it. -/
theorem head_stripTrailingDash : ∀ {l : List Char},
    stripTrailingDash l = [] ∨ (stripTrailingDash l).head? = l.head?
  | [] => Or.inl rfl
  | [a] => by
    rw [stripTrailingDash]
    by_cases ha : (a == dashChar) = true
    · rw [if_pos ha]
      exact Or.inl rfl
    · rw [if_neg ha]
      exact Or.inr rfl
  | _ :: _ :: _ => by
    rw [stripTrailingDash]
    exact Or.inr rfl

/-- Helper: stripping the trailing dash preserves the dash run freedom. -/
theorem noConsecDash_stripTrailingDash : ∀ {l : List Char},
    noConsecDash l = true → noConsecDash (stripTrailingDash l) = true
  | [], h => h
  | [a], h => by
    rw [stripTrailingDash]
    by_cases ha : (a == dashChar) = true
    · rw [if_pos ha]
      rfl
    · rw [if_neg ha]
      exact h
  | a :: b :: rest, h => by
    rw [stripTrailingDash]
    have hpair := bool_and_split (by rwa [noConsecDash_cons_cons] at h)
    have ih := noConsecDash_stripTrailingDash hpair.2
    cases hx : stripTrailingDash (b :: rest) with
    | nil => rfl
    | cons x xs =>
      rw [hx] at ih
      rcases @head_stripTrailingDash (b :: rest) with hnil | hhead
      · rw [hx] at hnil
        simp at hnil
      · rw [hx] at hhead
        simp only [List.head?_cons] at hhead
        have hxb : x = b := by injection hhead
        subst hxb
        rw [noConsecDash_cons_cons, ih]
        simp [hpair.1]

/-- Helper: after stripping the trailing dash of a dash run free list, the
last character is not a dash. -/
theorem getLast_stripTrailingDash : ∀ {l : List Char},
    noConsecDash l = true → (stripTrailingDash l).getLast? ≠ some dashChar
  | [], _ => by simp [stripTrailingDash]
  | [a], h => by
    rw [stripTrailingDash]
    by_cases ha : (a == dashChar) = true
    · rw [if_pos ha]
      simp
    · rw [if_neg ha]
      simp only [ne_eq, List.getLast?_singleton, Option.some.injEq]
      intro had
      exact ha (by simp [had])
  | a :: b :: rest, h => by
    rw [stripTrailingDash]
    have hpair := bool_and_split (by rwa [noConsecDash_cons_cons] at h)
    have ih := getLast_stripTrailingDash hpair.2
    cases hx : stripTrailingDash (b :: rest) with
    | nil =>
      rcases stripTrailingDash_eq_nil hx with hcon | hbd
      · simp at hcon
      · have hb : b = dashChar := by injection hbd
        simp only [ne_eq, List.getLast?_singleton, Option.some.injEq]
        intro had
        have h1 := hpair.1
        simp [had, hb] at h1
    | cons x xs =>
      rw [hx] at ih
      rw [List.getLast?_cons_cons]
      exact ih

/-- Helper: ASCII lowering preserves the dash run freedom. -/
theorem noConsecDash_map_jsToLower : ∀ {l : List Char},
    noConsecDash l = true → noConsecDash (l.map jsToLowerChar) = true
  | [], h => h
  | [a], _ => by
    simp only [List.map_cons, List.map_nil]
    rfl
  | a :: b :: rest, h => by
    have hpair := bool_and_split (by rwa [noConsecDash_cons_cons] at h)
    have ih := noConsecDash_map_jsToLower hpair.2
    simp only [List.map_cons] at ih ⊢
    rw [noConsecDash_cons_cons]
    simp only [Bool.and_eq_true]
    refine ⟨?_, ih⟩
    by_cases hab : (jsToLowerChar a == dashChar && jsToLowerChar b == dashChar) = true
    · have hfst := (bool_and_split hab).1
      have hsnd := (bool_and_split hab).2
      have ha2 : a = dashChar := (jsToLowerChar_eq_dash_iff a).mp (by simpa using hfst)
      have hb2 : b = dashChar := (jsToLowerChar_eq_dash_iff b).mp (by simpa using hsnd)
      have h1 := hpair.1
      simp [ha2, hb2] at h1
    · simp only [Bool.not_eq_true] at hab
      simp [hab]

/-- Helper: ASCII lowering preserves a non dash head. -/
theorem head_map_jsToLower {l : List Char} (h : l.head? ≠ some dashChar) :
    (l.map jsToLowerChar).head? ≠ some dashChar := by
  cases l with
  | nil => simp
  | cons a rest =>
    simp only [List.map_cons, List.head?_cons, ne_eq, Option.some.injEq] at h ⊢
    intro hd
    exact h ((jsToLowerChar_eq_dash_iff a).mp hd)

/-- Helper: ASCII lowering preserves a non dash last character. -/
theorem getLast_map_jsToLower {l : List Char} (h : l.getLast? ≠ some dashChar) :
    (l.map jsToLowerChar).getLast? ≠ some dashChar := by
  rw [List.getLast?_map]
  cases hl : l.getLast? with
  | none => simp
  | some x =>
    simp only [Option.map_some', ne_eq, Option.some.injEq]
    intro hd
    exact h (by rw [hl, (jsToLowerChar_eq_dash_iff x).mp hd])

/-- Helper: ASCII lowering sends word characters and the dash into the
slug character set. -/
theorem slugCharOK_jsToLower {c : Char} (h : isWordChar c = true ∨ c = dashChar) :
    slugCharOK (jsToLowerChar c) = true := by
  have ht := toNat_jsToLowerChar c
  rcases h with hw | rfl
  · simp only [isWordChar, Bool.or_eq_true, decide_eq_true_eq] at hw
    simp only [slugCharOK, Bool.or_eq_true, decide_eq_true_eq]
    by_cases h90 : 65 ≤ c.toNat ∧ c.toNat ≤ 90
    · rw [if_pos h90] at ht
      omega
    · rw [if_neg h90] at ht
      omega
  · decide

/-- C6: for every printable ASCII input name of length at most 100 the
derived slug has only characters among lowercase letters, digits, dot,
underscore and dash, has no uppercase ASCII letter, never two consecutive
dashes, and neither starts nor ends with a dash. (The proof in fact never
needs the two input bounds.) -/
theorem deriveSlug_wellformed (name : String)
    (hchars : ∀ c ∈ name.data, 32 ≤ c.toNat ∧ c.toNat ≤ 126)
    (hlen : name.length ≤ 100) :
    ((deriveSlug name).data.all slugCharOK = true) ∧
    ((deriveSlug name).data.all (fun c => !(isAsciiUpper c)) = true) ∧
    (noConsecDash (deriveSlug name).data = true) ∧
    ((deriveSlug name).data.head? ≠ some dashChar) ∧
    ((deriveSlug name).data.getLast? ≠ some dashChar) := by
  have hdata : (deriveSlug name).data
      = List.map jsToLowerChar
          (stripTrailingDash (stripLeadingDash
            (collapseDashes (dashNonWord (removeQuotes name.data))))) := rfl
  have hC : noConsecDash (collapseDashes (dashNonWord (removeQuotes name.data))) = true :=
    noConsecDash_collapseDashes _
  have hS1 := noConsecDash_stripLeadingDash hC
  have hS2 := noConsecDash_stripTrailingDash hS1
  have hhead1 := head_stripLeadingDash hC
  have hhead2 : (stripTrailingDash (stripLeadingDash
      (collapseDashes (dashNonWord (removeQuotes name.data))))).head? ≠ some dashChar := by
    rcases @head_stripTrailingDash (stripLeadingDash
        (collapseDashes (dashNonWord (removeQuotes name.data)))) with hnil | hh
    · rw [hnil]
      simp
    · rw [hh]
      exact hhead1
  have hlast := getLast_stripTrailingDash hS1
  refine ⟨?_, ?_, ?_, ?_, ?_⟩
  · rw [hdata, List.all_eq_true]
    intro c hc
    rcases List.mem_map.mp hc with ⟨x, hx, rfl⟩
    exact slugCharOK_jsToLower (mem_dashNonWord
      (mem_collapseDashes (mem_stripLeadingDash (mem_stripTrailingDash hx))))
  · rw [hdata, List.all_eq_true]
    intro c hc
    rcases List.mem_map.mp hc with ⟨x, hx, rfl⟩
    have hok := slugCharOK_jsToLower (mem_dashNonWord
      (mem_collapseDashes (mem_stripLeadingDash (mem_stripTrailingDash hx))))
    simp only [slugCharOK, Bool.or_eq_true, decide_eq_true_eq] at hok
    simp only [isAsciiUpper, Bool.not_eq_true', decide_eq_false_iff_not]
    omega
  · rw [hdata]
    exact noConsecDash_map_jsToLower hS2
  · rw [hdata]
    exact head_map_jsToLower hhead2
  · rw [hdata]
    exact getLast_map_jsToLower hlast

/-- C6 witness: the concrete printable name My Repo!! satisfies the
hypotheses and its slug my-repo is well formed. -/
theorem deriveSlug_wellformed_witness :
    (∀ c ∈ ("My Repo!!" : String).data, 32 ≤ c.toNat ∧ c.toNat ≤ 126) ∧
    ("My Repo!!" : String).length ≤ 100 ∧
    (((deriveSlug "My Repo!!").data.all slugCharOK = true) ∧
     ((deriveSlug "My Repo!!").data.all (fun c => !(isAsciiUpper c)) = true) ∧
     (noConsecDash (deriveSlug "My Repo!!").data = true) ∧
     ((deriveSlug "My Repo!!").data.head? ≠ some dashChar) ∧
     ((deriveSlug "My Repo!!").data.getLast? ≠ some dashChar)) :=
  ⟨by decide, by decide, deriveSlug_wellformed "My Repo!!" (by decide) (by decide)⟩
